import Mathlib

/-
Verification of the tldr-video backend core: the job pipeline and
chunked-LLM orchestration layer (backend/main.py, backend/llm_processor.py,
backend/youtube_handler.py, backend/transcriber.py).

The development shallowly embeds the Python source:
* pure string manipulation (the chunker inside
  `format_transcript_with_sections`, the JSON extraction inside
  `generate_chapters_and_takeaways`) is translated to Lean functions;
* HTTP calls to the Ollama backend and the external collaborators
  (downloader, transcriber) are modelled by an environment that supplies
  each call's outcome (transport exception, HTTP status, body), mirroring
  exactly how the Python code branches on those outcomes;
* the filesystem holding downloaded artifacts is a list of paths;
* the job store writes performed by `process_transcription` are collected
  into an explicit trace.
-/

namespace TldrVideo

/-! ## Python string primitives

`pySplit` models Python `str.split()` with no arguments: split on runs of
whitespace, discarding empty strings.  (We model the ASCII whitespace
characters; the transcripts handled by the source are ASCII-spaced text.)
`pyJoin sep` models Python `sep.join(list)`. -/

def isPySpace (c : Char) : Bool :=
  c = ' ' || c = '\t' || c = '\n' || c = '\r' || c = '\x0b' || c = '\x0c'

/-- Helper for `pySplit`: walk the characters, accumulating the current
word (`acc`, in order); whitespace flushes the accumulated word. -/
def pySplitAux : List Char → List Char → List String
  | [], acc => if acc.isEmpty then [] else [String.mk acc]
  | c :: cs, acc =>
    if isPySpace c then
      if acc.isEmpty then pySplitAux cs [] else String.mk acc :: pySplitAux cs []
    else
      pySplitAux cs (acc ++ [c])

/-- Python `text.split()` (llm_processor.py line 110: `words = text.split()`). -/
def pySplit (s : String) : List String :=
  pySplitAux s.toList []

/-- Python `sep.join(parts)` (llm_processor.py lines 116, 124: `' '.join(...)`;
line 177: `"\n\n".join(...)`). -/
def pyJoin (sep : String) : List String → String
  | [] => ""
  | [x] => x
  | x :: y :: xs => x ++ sep ++ pyJoin sep (y :: xs)

/-! ## The chunker

Translation of llm_processor.py lines 106–124, the chunk-splitting loop of
`format_transcript_with_sections`.  The source fixes `CHUNK_SIZE = 4000`;
the loop is parametrised here by that bound so the spec's
"for every positive maxSize" claims can be stated. -/

def CHUNK_SIZE : Nat := 4000

/-- The greedy accumulation loop (llm_processor.py lines 114–121):
state is the remaining words, `current_chunk` and `current_length`. -/
def chunkLoop (maxSize : Nat) : List String → List String → Nat → List String
  | [], cur, _ => if cur.isEmpty then [] else [pyJoin " " cur]
  | w :: ws, cur, len =>
    if len + w.length + 1 > maxSize then
      pyJoin " " cur :: chunkLoop maxSize ws [w] w.length
    else
      chunkLoop maxSize ws (cur ++ [w]) (len + w.length + 1)

/-- The chunker of `format_transcript_with_sections`
(llm_processor.py lines 106–124): split `text` into whitespace tokens and
greedily accumulate them into chunks. -/
def split_chunks (text : String) (maxSize : Nat) : List String :=
  chunkLoop maxSize (pySplit text) [] 0

/-! ## JSON values and `json.loads`

`generate_chapters_and_takeaways` (llm_processor.py lines 73–86) parses a
substring of the model response with Python's `json.loads`.  `Json` and
`jsonLoads` model the strict RFC 8259 grammar that `json.loads` accepts
(objects, arrays, strings with escapes, numbers, literals, the four
whitespace characters; numeric lexemes are kept verbatim since no claim
inspects numeric values).  Duplicate object keys follow Python dict
semantics: the last binding wins on lookup. -/

inductive Json where
  | null
  | bool (b : Bool)
  | num (lexeme : String)
  | str (s : String)
  | arr (elems : List Json)
  | obj (members : List (String × Json))

def isJsonWs (c : Char) : Bool :=
  c = ' ' || c = '\t' || c = '\n' || c = '\r'

def skipWs : List Char → List Char
  | [] => []
  | c :: cs => if isJsonWs c then skipWs cs else c :: cs

def hexVal? (c : Char) : Option Nat :=
  if '0' ≤ c ∧ c ≤ '9' then some (c.toNat - '0'.toNat)
  else if 'a' ≤ c ∧ c ≤ 'f' then some (c.toNat - 'a'.toNat + 10)
  else if 'A' ≤ c ∧ c ≤ 'F' then some (c.toNat - 'A'.toNat + 10)
  else none

/-- Body of a JSON string literal, after the opening quote: handles the
escape sequences accepted by `json.loads`; an unescaped control character
or an unterminated string is a parse error. -/
def parseStringAux (acc : List Char) (cs : List Char) : Option (String × List Char) :=
  match cs with
  | [] => none
  | c :: cs1 =>
    if c = '"' then some (String.mk acc, cs1)
    else if c = '\\' then
      match cs1 with
      | [] => none
      | e :: cs2 =>
        if e = '"' then parseStringAux (acc ++ ['"']) cs2
        else if e = '\\' then parseStringAux (acc ++ ['\\']) cs2
        else if e = '/' then parseStringAux (acc ++ ['/']) cs2
        else if e = 'b' then parseStringAux (acc ++ ['\x08']) cs2
        else if e = 'f' then parseStringAux (acc ++ ['\x0c']) cs2
        else if e = 'n' then parseStringAux (acc ++ ['\n']) cs2
        else if e = 'r' then parseStringAux (acc ++ ['\r']) cs2
        else if e = 't' then parseStringAux (acc ++ ['\t']) cs2
        else if e = 'u' then
          match cs2 with
          | h1 :: h2 :: h3 :: h4 :: cs3 =>
            match hexVal? h1, hexVal? h2, hexVal? h3, hexVal? h4 with
            | some v1, some v2, some v3, some v4 =>
              parseStringAux (acc ++ [Char.ofNat (((v1 * 16 + v2) * 16 + v3) * 16 + v4)]) cs3
            | _, _, _, _ => none
          | _ => none
        else none
    else if c.toNat < 32 then none
    else parseStringAux (acc ++ [c]) cs1

/-- Exponent part of a JSON number; `lex` is the lexeme built so far. -/
def parseExpPart (lex : List Char) (rest : List Char) : Option (String × List Char) :=
  match rest with
  | [] => some (String.mk lex, [])
  | e :: r2 =>
    if e = 'e' ∨ e = 'E' then
      let sgnR2 : List Char × List Char :=
        match r2 with
        | '+' :: t => (['+'], t)
        | '-' :: t => (['-'], t)
        | _ => ([], r2)
      let ds := sgnR2.2.takeWhile Char.isDigit
      let r4 := sgnR2.2.dropWhile Char.isDigit
      if ds.isEmpty then none
      else some (String.mk (lex ++ e :: sgnR2.1 ++ ds), r4)
    else some (String.mk lex, rest)

/-- Fraction part of a JSON number. -/
def parseFracPart (lex : List Char) (rest : List Char) : Option (String × List Char) :=
  match rest with
  | '.' :: r2 =>
    let ds := r2.takeWhile Char.isDigit
    let r3 := r2.dropWhile Char.isDigit
    if ds.isEmpty then none else parseExpPart (lex ++ '.' :: ds) r3
  | _ => parseExpPart lex rest

/-- A JSON number per RFC 8259: `-? (0 | [1-9][0-9]*) frac? exp?`. -/
def parseNumber (cs : List Char) : Option (String × List Char) :=
  let signCs : List Char × List Char :=
    match cs with
    | '-' :: t => (['-'], t)
    | _ => ([], cs)
  match signCs.2 with
  | [] => none
  | c :: t =>
    if c = '0' then parseFracPart (signCs.1 ++ ['0']) t
    else if c.isDigit then
      parseFracPart (signCs.1 ++ c :: t.takeWhile Char.isDigit) (t.dropWhile Char.isDigit)
    else none

mutual

def parseValue (fuel : Nat) (cs : List Char) : Option (Json × List Char) :=
  match fuel with
  | 0 => none
  | fuel + 1 =>
    match skipWs cs with
    | [] => none
    | c :: rest =>
      if c = '{' then parseObjStart fuel rest
      else if c = '[' then parseArrStart fuel rest
      else if c = '"' then
        match parseStringAux [] rest with
        | some (s, r) => some (.str s, r)
        | none => none
      else if c = 't' then
        match rest with
        | 'r' :: 'u' :: 'e' :: r => some (.bool true, r)
        | _ => none
      else if c = 'f' then
        match rest with
        | 'a' :: 'l' :: 's' :: 'e' :: r => some (.bool false, r)
        | _ => none
      else if c = 'n' then
        match rest with
        | 'u' :: 'l' :: 'l' :: r => some (.null, r)
        | _ => none
      else if c = '-' ∨ c.isDigit then
        match parseNumber (c :: rest) with
        | some (lex, r) => some (.num lex, r)
        | none => none
      else none

def parseObjStart (fuel : Nat) (cs : List Char) : Option (Json × List Char) :=
  match fuel with
  | 0 => none
  | fuel + 1 =>
    match skipWs cs with
    | '}' :: r => some (.obj [], r)
    | _ => parseObjMembers fuel cs []

def parseObjMembers (fuel : Nat) (cs : List Char) (acc : List (String × Json)) :
    Option (Json × List Char) :=
  match fuel with
  | 0 => none
  | fuel + 1 =>
    match skipWs cs with
    | '"' :: r =>
      match parseStringAux [] r with
      | some (k, r2) =>
        match skipWs r2 with
        | ':' :: r3 =>
          match parseValue fuel r3 with
          | some (v, r4) =>
            match skipWs r4 with
            | ',' :: r5 => parseObjMembers fuel r5 (acc ++ [(k, v)])
            | '}' :: r5 => some (.obj (acc ++ [(k, v)]), r5)
            | _ => none
          | none => none
        | _ => none
      | none => none
    | _ => none

def parseArrStart (fuel : Nat) (cs : List Char) : Option (Json × List Char) :=
  match fuel with
  | 0 => none
  | fuel + 1 =>
    match skipWs cs with
    | ']' :: r => some (.arr [], r)
    | _ => parseArrElems fuel cs []

def parseArrElems (fuel : Nat) (cs : List Char) (acc : List Json) :
    Option (Json × List Char) :=
  match fuel with
  | 0 => none
  | fuel + 1 =>
    match parseValue fuel cs with
    | some (v, r) =>
      match skipWs r with
      | ',' :: r2 => parseArrElems fuel r2 (acc ++ [v])
      | ']' :: r2 => some (.arr (acc ++ [v]), r2)
      | _ => none
    | none => none

end

/-- Model of Python `json.loads`: parse one value and require that only
whitespace remains.  The fuel bound `3 * (length + 1)` exceeds the number
of parser steps any input of this length can take. -/
def jsonLoads (s : String) : Option Json :=
  match parseValue (3 * (s.length + 1)) s.toList with
  | some (j, rest) => if (skipWs rest).isEmpty then some j else none
  | none => none

/-! ## The response extractor

Translation of llm_processor.py lines 73–93 (inside
`generate_chapters_and_takeaways`): find the first opening brace and the
last closing brace, `json.loads` the enclosed slice, and on any failure
return the fixed fallback record. -/

/-- Python `s.find(c)` on character index: first index or `-1`. -/
def strFind (s : String) (c : Char) : Int :=
  match List.findIdx? (· = c) s.toList with
  | some i => (i : Int)
  | none => -1

/-- Python `s.rfind(c)` on character index: last index or `-1`. -/
def strRfind (s : String) (c : Char) : Int :=
  match List.findIdx? (· = c) s.toList.reverse with
  | some i => ((s.toList.length - 1 - i : Nat) : Int)
  | none => -1

/-- Python `s[a:b]` for `0 ≤ a ≤ b` (the only way the source slices). -/
def pySlice (s : String) (a b : Int) : String :=
  String.mk ((s.toList.drop a.toNat).take (b.toNat - a.toNat))

/-- Lookup in a parsed JSON object, mirroring Python dict lookup built by
`json.loads`: the last binding of a duplicated key wins; `none` when the
key is absent. -/
def Json.get? (j : Json) (k : String) : Option Json :=
  match j with
  | .obj kvs => ((kvs.filter (fun p => p.1 = k)).getLast?).map (fun p => p.2)
  | _ => none

/-- Python `parsed.get(key, default)`. -/
def pyDictGet (j : Json) (k : String) (dflt : Json) : Json :=
  (Json.get? j k).getD dflt

/-- The result dict of `generate_chapters_and_takeaways`: the success path
returns exactly the keys `chapters`/`takeaways` (llm_processor.py lines
81–84); the fallback path additionally carries `raw_response`
(lines 89–93), encoded here as `raw_response = some _`. -/
structure ExtractResult where
  chapters : Json
  takeaways : Json
  raw_response : Option String

/-- The fixed fallback record (llm_processor.py lines 89–93). -/
def fallbackRecord (llm_response : String) : ExtractResult :=
  { chapters := .arr [.obj [("timestamp", .str "00:00"), ("title", .str "Full Content")]]
    takeaways := .arr [.str "See transcript for details"]
    raw_response := some llm_response }

/-- The parse-and-extract step of `generate_chapters_and_takeaways`
(llm_processor.py lines 73–93). -/
def extract_chapters_takeaways (llm_response : String) : ExtractResult :=
  let json_start : Int := strFind llm_response '{'
  let json_end : Int := strRfind llm_response '}' + 1
  if json_start ≠ -1 ∧ json_end > json_start then
    match jsonLoads (pySlice llm_response json_start json_end) with
    | some parsed =>
      { chapters := pyDictGet parsed "chapters" (.arr [])
        takeaways := pyDictGet parsed "takeaways" (.arr [])
        raw_response := none }
    | none => fallbackRecord llm_response
  else fallbackRecord llm_response

/-! ## The Ollama HTTP calls

Each `client.post(OLLAMA_URL, ...)` in llm_processor.py either raises a
transport exception or yields a response with a status code, a text, and a
JSON body.  Per the §6 interface contract the body, when it parses, is an
object with an optional string field `response`; a body that is not valid
JSON makes `response.json()` raise.  An `LlmCall` records the outcome of
one such request; the code's branching on it is translated verbatim. -/

inductive LlmBody where
  /-- Case where `response.json()` raises with this message. -/
  | malformed (msg : String)
  /-- Case where `response.json()` yields an object whose `response` field is
  `some`/`none` as the field is present or absent. -/
  | obj (response : Option String)
  deriving DecidableEq

inductive LlmCall where
  /-- the request itself raises (transport error). -/
  | exn (msg : String)
  /-- the request returns: HTTP status code, `response.text`, body. -/
  | resp (status : Nat) (text : String) (body : LlmBody)
  deriving DecidableEq

/-- Model of `generate_chapters_and_takeaways` (llm_processor.py lines 9–93): issue
one structured-generation request and extract chapters/takeaways from its
response.  `Except.error` models a propagating Python exception: a
transport error, the explicit `raise Exception("Ollama error: ...")` on a
non-200 status (line 68), or `response.json()` raising (line 70).  The
transcript, segments and title influence only the prompt, hence only the
backend's answer, which the `call` argument supplies. -/
def generate_chapters_and_takeaways (call : LlmCall) : Except String ExtractResult :=
  match call with
  | .exn msg => .error msg
  | .resp status text body =>
    if status ≠ 200 then .error ("Ollama error: " ++ text)
    else
      match body with
      | .malformed msg => .error msg
      | .obj response => .ok (extract_chapters_takeaways (response.getD ""))

/-- The per-chunk request loop of `format_transcript_with_sections`
(llm_processor.py lines 129–174): the backend is consulted once per chunk,
in index order.  A 200 response contributes `result.get("response", chunk)`;
any other status contributes the original chunk (lines 168–174); a raised
exception — transport error, or `response.json()` raising on a 200
response — propagates, aborting the loop. -/
def formatChunksGo (backend : Nat → LlmCall) : Nat → List String → Except String (List String)
  | _, [] => .ok []
  | i, chunk :: rest =>
    match backend i with
    | .exn msg => .error msg
    | .resp status _ body =>
      if status = 200 then
        match body with
        | .malformed msg => .error msg
        | .obj response =>
          match formatChunksGo backend (i + 1) rest with
          | .error msg => .error msg
          | .ok parts => .ok (response.getD chunk :: parts)
      else
        match formatChunksGo backend (i + 1) rest with
        | .error msg => .error msg
        | .ok parts => .ok (chunk :: parts)

/-- Model of `format_transcript_with_sections` (llm_processor.py lines 96–179):
chunk the text with `CHUNK_SIZE = 4000`, reformat each chunk through the
backend, and join the parts with a blank line.  The `chapters` argument of
the source function is unused by its body. -/
def format_transcript_with_sections (text : String) (backend : Nat → LlmCall) :
    Except String String :=
  match formatChunksGo backend 0 (split_chunks text CHUNK_SIZE) with
  | .error msg => .error msg
  | .ok parts => .ok (pyJoin "\n\n" parts)

/-! ## Storage and `cleanup_audio`

Downloaded artifacts live in a filesystem modelled as the list of present
paths.  `os.remove` deletes a path; `os.path.exists` tests presence. -/

def removeFile (p : String) (fs : List String) : List String :=
  fs.filter (fun q => q ≠ p)

def osPathExists (p : String) (fs : List String) : Bool :=
  fs.contains p

/-- Model of `cleanup_audio` (youtube_handler.py lines 114–122): best-effort removal
of the audio file and the thumbnail.  Python truthiness makes `None` and
the empty string skip removal; the surrounding `try/except: pass` swallows
removal failures, so removal is modelled as always succeeding. -/
def cleanup_audio (audio_path : Option String) (thumbnail_path : Option String)
    (fs : List String) : List String :=
  let fs1 :=
    match audio_path with
    | some p => if p ≠ "" ∧ osPathExists p fs then removeFile p fs else fs
    | none => fs
  match thumbnail_path with
  | some p => if p ≠ "" ∧ osPathExists p fs1 then removeFile p fs1 else fs1
  | none => fs1

/-! ## The pipeline orchestrator

`process_transcription` (main.py lines 117–206) drives
download → transcribe → structured generation → reformatting, writing the
job record at every transition and cleaning up in a `finally` block.  The
collaborators' outcomes are supplied by an `Env`; the job-store writes are
collected into a trace, in the order the source performs them. -/

structure DownloadInfo where
  audio_path : String
  title : String
  duration : Rat
  thumbnail_path : Option String
  channel : String

inductive DownloadOutcome where
  /-- Case where `extract_audio` raises; a thumbnail downloaded before the failing
  audio download (youtube_handler.py line 71 precedes line 88) stays on
  disk and its path is lost to the caller. -/
  | failure (msg : String) (thumbnailLeaked : Option String)
  /-- Case where `extract_audio` returns; the audio file and the optional thumbnail
  are now in storage. -/
  | success (info : DownloadInfo)

/-- One whisper segment as shaped by `transcribe_audio`
(transcriber.py lines 23–29). -/
structure Segment where
  start : Rat
  end_ : Rat
  text : String

/-- The dict returned by `transcribe_audio` (transcriber.py lines 31–35);
`language` is optional because main.py line 189 defaults it. -/
structure TranscribeInfo where
  text : String
  segments : List Segment
  language : Option String

/-- Outcomes of the collaborator calls made by one pipeline run. -/
structure Env where
  download : DownloadOutcome
  transcribe : Except String TranscribeInfo
  llmCall : LlmCall
  formatBackend : Nat → LlmCall

inductive Status where
  | starting
  | downloading
  | transcribing
  | processing
  | complete
  | error
  deriving DecidableEq

/-- The `result` dict written on completion (main.py lines 182–192). -/
structure PipelineResult where
  title : String
  transcript : String
  raw_transcript : String
  segments : List Segment
  chapters : Json
  takeaways : Json
  language : String
  thumbnail_path : Option String
  channel : String

/-- One assignment `jobs[job_id] = ...`. -/
structure JobWrite where
  status : Status
  progress : Nat
  message : String
  result : Option PipelineResult

def startingWrite : JobWrite :=
  { status := .starting, progress := 0, message := "Starting...", result := none }

def downloadingWrite : JobWrite :=
  { status := .downloading, progress := 10, message := "Downloading audio...", result := none }

def transcribingWrite : JobWrite :=
  { status := .transcribing, progress := 30,
    message := "Transcribing audio (this may take a few minutes)...", result := none }

def processing70Write : JobWrite :=
  { status := .processing, progress := 70,
    message := "Generating chapters and takeaways...", result := none }

def processing85Write : JobWrite :=
  { status := .processing, progress := 85,
    message := "Formatting transcript and removing promotional content...", result := none }

def errorWrite (msg : String) : JobWrite :=
  { status := .error, progress := 0, message := msg, result := none }

def completeWrite (r : PipelineResult) : JobWrite :=
  { status := .complete, progress := 100, message := "Done!", result := some r }

/-- Model of `process_transcription` (main.py lines 117–206): the job-store writes
it performs, in order, and the final filesystem.  The `finally` block
(lines 203–206) calls `cleanup_audio(audio_path)` — with no thumbnail
argument — whenever `audio_path` was assigned, i.e. on every exit path
after a successful download. -/
def process_transcription (env : Env) (fs0 : List String) :
    List JobWrite × List String :=
  match env.download with
  | .failure msg leaked =>
    ([downloadingWrite, errorWrite msg], fs0 ++ leaked.toList)
  | .success d =>
    let fs1 := fs0 ++ [d.audio_path] ++ d.thumbnail_path.toList
    let fsEnd := cleanup_audio (some d.audio_path) none fs1
    match env.transcribe with
    | .error msg =>
      ([downloadingWrite, transcribingWrite, errorWrite msg], fsEnd)
    | .ok tr =>
      match generate_chapters_and_takeaways env.llmCall with
      | .error msg =>
        ([downloadingWrite, transcribingWrite, processing70Write, errorWrite msg], fsEnd)
      | .ok llm =>
        match format_transcript_with_sections tr.text env.formatBackend with
        | .error msg =>
          ([downloadingWrite, transcribingWrite, processing70Write, processing85Write,
            errorWrite msg], fsEnd)
        | .ok formatted =>
          ([downloadingWrite, transcribingWrite, processing70Write, processing85Write,
            completeWrite
              { title := d.title, transcript := formatted, raw_transcript := tr.text,
                segments := tr.segments, chapters := llm.chapters,
                takeaways := llm.takeaways, language := tr.language.getD "en",
                thumbnail_path := d.thumbnail_path, channel := d.channel }], fsEnd)

/-- All writes to the job record of one job: `transcribe_video`
(main.py lines 104–109) writes the `starting` record, then the background
task appends its writes. -/
def jobTrace (env : Env) (fs0 : List String) : List JobWrite :=
  startingWrite :: (process_transcription env fs0).1

/-- Storage once the job has reached its terminal state. -/
def finalFs (env : Env) (fs0 : List String) : List String :=
  (process_transcription env fs0).2

def traceStatuses (env : Env) (fs0 : List String) : List Status :=
  (jobTrace env fs0).map (fun w => w.status)

/-! ## The pipeline state machine vocabulary -/

def statusRank : Status → Nat
  | .starting => 0
  | .downloading => 1
  | .transcribing => 2
  | .processing => 3
  | .complete => 4
  | .error => 5

def isTerminal (s : Status) : Bool :=
  s = .complete || s = .error

def canonicalOrder : List Status :=
  [.starting, .downloading, .transcribing, .processing, .complete]

/-- Collapse consecutive duplicate statuses: repeated polling of an
unchanged record observes one state, so observation sequences are compared
up to stuttering. -/
def collapseStatuses : List Status → List Status
  | [] => []
  | [s] => [s]
  | a :: b :: rest =>
    if a = b then collapseStatuses (b :: rest) else a :: collapseStatuses (b :: rest)

/-- Observation relation: `Stutter o l` holds when `o` can be read off the
writes of `l` front to back, reading each write zero or more times —
exactly what repeated polling of a register that receives the writes of
`l` in order can observe. -/
inductive Stutter : List Status → List Status → Prop where
  | nil (l : List Status) : Stutter [] l
  | skip (a : Status) (o l : List Status) (h : Stutter o l) : Stutter o (a :: l)
  | take (a : Status) (o l : List Status) (h : Stutter o (a :: l)) : Stutter (a :: o) (a :: l)

/-- The statuses observed by a sequence of polls: poll number `m` reads
the job record as of write number `idxs m` (the write count can only grow
between polls, so `idxs` is non-decreasing).  A poll after the last write
reads the final record, i.e. carries the index of the last write;
out-of-range indices contribute no observation. -/
def sampledStatuses (env : Env) (fs0 : List String) (idxs : List Nat) : List Status :=
  idxs.filterMap (fun k => (traceStatuses env fs0)[k]?)

/-! ## Derived vocabulary for the claims -/

/-- Whether one backend call lets the reformatting loop proceed to the next
chunk: a transport exception aborts, and so does a 200 response whose body
is not JSON (`response.json()` raises); every other response is consumed
(llm_processor.py lines 168–174). -/
def callProceeds (c : LlmCall) : Bool :=
  match c with
  | .exn _ => false
  | .resp status _ body =>
    if status = 200 then
      match body with
      | .malformed _ => false
      | .obj _ => true
    else true

/-- The part contributed for one chunk by a call that proceeds: a
200 response contributes `result.get("response", chunk)`, any other
status the original chunk. -/
def chunkCallResult (call : LlmCall) (chunk : String) : String :=
  match call with
  | .exn _ => chunk
  | .resp status _ body =>
    if status = 200 then
      match body with
      | .malformed _ => chunk
      | .obj response => response.getD chunk
    else chunk

/-- The `formatted_parts` list produced when every call proceeds. -/
def resultParts (backend : Nat → LlmCall) : Nat → List String → List String
  | _, [] => []
  | i, chunk :: rest => chunkCallResult (backend i) chunk :: resultParts backend (i + 1) rest

/-- One chapter entry of the §4.2 schema: an object whose `timestamp` and
`title` fields are strings. -/
def chapterConforms (j : Json) : Bool :=
  match Json.get? j "timestamp", Json.get? j "title" with
  | some (.str _), some (.str _) => true
  | _, _ => false

def isJsonStr (j : Json) : Bool :=
  match j with
  | .str _ => true
  | _ => false

/-- The §4.2 chapters/takeaways schema: the `chapters` field, when present,
is a sequence of chapter entries; `takeaways`, when present, a sequence of
strings. -/
def conformsSchema (j : Json) : Bool :=
  (match Json.get? j "chapters" with
   | none => true
   | some (.arr xs) => xs.all chapterConforms
   | some _ => false) &&
  (match Json.get? j "takeaways" with
   | none => true
   | some (.arr xs) => xs.all isJsonStr
   | some _ => false)

/-! ## Concrete scenarios used as counterexamples and witnesses -/

def dummyDownload : DownloadInfo :=
  { audio_path := "downloads/vid.mp3", title := "T", duration := 0,
    thumbnail_path := some "downloads/vid_thumb.jpg", channel := "C" }

/-- A run whose download succeeds (audio and thumbnail land in storage) and
whose transcription stage raises. -/
def envTranscribeFails : Env :=
  { download := .success dummyDownload,
    transcribe := .error "whisper failed",
    llmCall := .exn "unused",
    formatBackend := fun _ => .exn "unused" }

/-- A run in which every stage succeeds except that the reformatting call
for the (single) chunk raises a transport error. -/
def envFormatTransportError : Env :=
  { download := .success dummyDownload,
    transcribe := .ok { text := "hello world", segments := [], language := some "en" },
    llmCall := .resp 200 "" (.obj (some "x")),
    formatBackend := fun _ => .exn "connection refused" }

/-- A run that fails at the download stage itself. -/
def envDownloadFails : Env :=
  { download := .failure "yt-dlp download error: 403" none,
    transcribe := .error "unused",
    llmCall := .exn "unused",
    formatBackend := fun _ => .exn "unused" }

/-- A run that fails at the structured-generation stage. -/
def envLlmFails : Env :=
  { download := .success dummyDownload,
    transcribe := .ok { text := "hello world", segments := [], language := some "en" },
    llmCall := .exn "ollama down",
    formatBackend := fun _ => .exn "unused" }

/-- A fully successful run: the backend echoes a fixed reformatted text and
returns a response with no parseable braces for structured generation. -/
def envAllOk : Env :=
  { download := .success dummyDownload,
    transcribe := .ok { text := "hello world", segments := [], language := some "en" },
    llmCall := .resp 200 "" (.obj (some "no braces")),
    formatBackend := fun _ => .resp 200 "" (.obj (some "HW")) }

/-! ## Sanity checks (concrete evaluations of the embedded code) -/

example : split_chunks "" 10 = [] := by decide
example : split_chunks "a b c" 10 = ["a b c"] := by decide
example : split_chunks "aa bb cc" 5 = ["aa", "bb cc"] := by decide
example : split_chunks "aaaaaaa bb" 5 = ["", "aaaaaaa", "bb"] := by decide
example : extract_chapters_takeaways "no braces here" = fallbackRecord "no braces here" := by
  rfl
example :
    extract_chapters_takeaways "xx\x7b\"chapters\": [], \"takeaways\": [\"A\"]\x7dyy" =
      { chapters := .arr [], takeaways := .arr [.str "A"], raw_response := none } := by
  rfl
example :
    extract_chapters_takeaways "a\x7bnot json\x7db" = fallbackRecord "a\x7bnot json\x7db" := by
  rfl
example :
    format_transcript_with_sections "hello world"
        (fun _ => .resp 200 "" (.obj (some "HW"))) = .ok "HW" := by rfl
example :
    format_transcript_with_sections "hello world" (fun _ => .exn "boom") =
      .error "boom" := by rfl
example :
    format_transcript_with_sections "hello world" (fun _ => .resp 500 "" (.obj none)) =
      .ok "hello world" := by rfl

/-! ## Chunker lemmas -/

theorem pyJoin_append_singleton (sep : String) (xs : List String) (w : String) :
    pyJoin sep (xs ++ [w]) = if xs.isEmpty then w else pyJoin sep xs ++ sep ++ w := by
  induction xs with
  | nil => rfl
  | cons x xs ih =>
    cases xs with
    | nil => rfl
    | cons y ys =>
      have hL : pyJoin sep ((x :: y :: ys) ++ [w]) =
          x ++ sep ++ pyJoin sep ((y :: ys) ++ [w]) := rfl
      have hR : pyJoin sep (x :: y :: ys) = x ++ sep ++ pyJoin sep (y :: ys) := rfl
      rw [hL, ih, hR]
      simp [String.append_assoc]

theorem length_pyJoin_append_singleton (xs : List String) (w : String) :
    (pyJoin " " (xs ++ [w])).length =
      if xs.isEmpty then w.length else (pyJoin " " xs).length + 1 + w.length := by
  rw [pyJoin_append_singleton]
  have hsp : (" " : String).length = 1 := rfl
  cases xs with
  | nil => simp
  | cons x xs => simp [String.length_append, hsp]

/-- A chunk emitted by closing the accumulator: it is within the bound
unless the accumulator held a single oversized token. -/
theorem emitted_chunk_bound (maxSize len : Nat) (cur : List String) (W : List String)
    (hcur : ∀ w ∈ cur, w ∈ W) (hlen : (pyJoin " " cur).length ≤ len)
    (hok : len ≤ maxSize ∨ ∃ w, cur = [w]) :
    (pyJoin " " cur).length ≤ maxSize ∨
      (pyJoin " " cur ∈ W ∧ maxSize < (pyJoin " " cur).length) := by
  rcases hok with hok | ⟨w, rfl⟩
  · exact Or.inl (le_trans hlen hok)
  · rcases le_or_lt (pyJoin " " [w]).length maxSize with h | h
    · exact Or.inl h
    · refine Or.inr ⟨?_, h⟩
      have hwW : w ∈ W := hcur w (by simp)
      simpa [pyJoin] using hwW

theorem chunkLoop_size_bound (maxSize : Nat) (W : List String) :
    ∀ (ws cur : List String) (len : Nat),
      (∀ w ∈ cur, w ∈ W) → (∀ w ∈ ws, w ∈ W) →
      (pyJoin " " cur).length ≤ len →
      (len ≤ maxSize ∨ ∃ w, cur = [w]) →
      ∀ c ∈ chunkLoop maxSize ws cur len,
        c.length ≤ maxSize ∨ (c ∈ W ∧ maxSize < c.length) := by
  intro ws
  induction ws with
  | nil =>
    intro cur len hcur _ hlen hok c hc
    by_cases hemp : cur.isEmpty
    · simp [chunkLoop, hemp] at hc
    · simp only [chunkLoop, hemp, if_neg Bool.false_ne_true, List.mem_singleton] at hc
      subst hc
      exact emitted_chunk_bound maxSize len cur W hcur hlen hok
  | cons w ws ih =>
    intro cur len hcur hws hlen hok c hc
    simp only [chunkLoop] at hc
    by_cases hover : len + w.length + 1 > maxSize
    · rw [if_pos hover] at hc
      rcases List.mem_cons.mp hc with rfl | hc'
      · exact emitted_chunk_bound maxSize len cur W hcur hlen hok
      · refine ih [w] w.length ?_ ?_ ?_ (Or.inr ⟨w, rfl⟩) c hc'
        · intro x hx
          rw [List.mem_singleton] at hx
          subst hx
          exact hws x (by simp)
        · intro x hx
          exact hws x (List.mem_cons_of_mem _ hx)
        · simp [pyJoin]
    · rw [if_neg hover] at hc
      push_neg at hover
      refine ih (cur ++ [w]) (len + w.length + 1) ?_ ?_ ?_ (Or.inl hover) c hc
      · intro x hx
        rcases List.mem_append.mp hx with h | h
        · exact hcur x h
        · rw [List.mem_singleton] at h
          subst h
          exact hws x (by simp)
      · intro x hx
        exact hws x (List.mem_cons_of_mem _ hx)
      · rw [length_pyJoin_append_singleton]
        by_cases he : cur.isEmpty
        · simp only [he, if_pos]
          omega
        · simp only [he, if_neg Bool.false_ne_true]
          omega

/-- C4: for every input text and positive maximum size, no chunk produced
by the chunker's whitespace-split greedy accumulation exceeds the maximum
size, except when a chunk consists of a single token (an element of the
whitespace split of the input) that itself is longer than the maximum, in
which case that token forms its own oversized chunk. -/
theorem C4_chunk_size_bound (text : String) (maxSize : Nat) (hpos : 0 < maxSize)
    (c : String) (hc : c ∈ split_chunks text maxSize) :
    c.length ≤ maxSize ∨ (c ∈ pySplit text ∧ maxSize < c.length) :=
  chunkLoop_size_bound maxSize (pySplit text) (pySplit text) [] 0
    (by simp) (fun _ hw => hw) (by simp [pyJoin]) (Or.inl (Nat.zero_le _)) c hc

/-- Witness for C4 at a concrete input: with bound 3, the token `aaaaaa`
of `"aaaaaa bb"` forms its own oversized chunk and every other chunk fits. -/
theorem C4_witness :
    0 < 3 ∧ "aaaaaa" ∈ split_chunks "aaaaaa bb" 3 ∧
      ("aaaaaa".length ≤ 3 ∨ ("aaaaaa" ∈ pySplit "aaaaaa bb" ∧ 3 < "aaaaaa".length)) :=
  ⟨by decide, by decide, C4_chunk_size_bound "aaaaaa bb" 3 (by decide) "aaaaaa" (by decide)⟩

/-! ## Split/join reconstruction lemmas (for C5) -/

theorem pySplitAux_append_sep (c : Char) (hc : isPySpace c = true) :
    ∀ (l1 l2 acc : List Char),
      pySplitAux (l1 ++ c :: l2) acc = pySplitAux l1 acc ++ pySplitAux l2 [] := by
  intro l1
  induction l1 with
  | nil =>
    intro l2 acc
    by_cases ha : acc.isEmpty <;>
      simp [pySplitAux, ha, hc]
  | cons d l1 ih =>
    intro l2 acc
    simp only [List.cons_append, pySplitAux]
    by_cases hd : isPySpace d
    · by_cases ha : acc.isEmpty <;> simp [hd, ha, ih]
    · simp [hd, ih]

theorem pySplitAux_no_space :
    ∀ (cs acc : List Char), (∀ c ∈ cs, isPySpace c = false) →
      pySplitAux cs acc = if (acc ++ cs).isEmpty then [] else [String.mk (acc ++ cs)] := by
  intro cs
  induction cs with
  | nil =>
    intro acc _
    simp [pySplitAux]
  | cons c cs ih =>
    intro acc h
    have hc : isPySpace c = false := h c (by simp)
    simp only [pySplitAux, hc, Bool.false_eq_true, if_false]
    rw [ih (acc ++ [c]) (fun x hx => h x (by simp [hx]))]
    simp [List.append_assoc]

theorem mk_word_good (acc : List Char) (hacc : ∀ c ∈ acc, isPySpace c = false)
    (hne : acc ≠ []) :
    String.mk acc ≠ "" ∧ ∀ c ∈ (String.mk acc).toList, isPySpace c = false := by
  constructor
  · intro hcon
    have : acc = [] := congrArg String.data hcon
    exact hne this
  · intro c hcw
    exact hacc c hcw

theorem pySplitAux_words_good :
    ∀ (cs acc : List Char), (∀ c ∈ acc, isPySpace c = false) →
      ∀ w ∈ pySplitAux cs acc, w ≠ "" ∧ ∀ c ∈ w.toList, isPySpace c = false := by
  intro cs
  induction cs with
  | nil =>
    intro acc hacc w hw
    by_cases ha : acc.isEmpty
    · simp [pySplitAux, ha] at hw
    · simp only [pySplitAux, ha, if_neg Bool.false_ne_true, List.mem_singleton] at hw
      subst hw
      exact mk_word_good acc hacc (fun h => ha (by simp [h]))
  | cons c cs ih =>
    intro acc hacc w hw
    simp only [pySplitAux] at hw
    cases hc : isPySpace c with
    | true =>
      rw [hc] at hw
      simp only [if_true] at hw
      by_cases ha : acc.isEmpty
      · rw [if_pos ha] at hw
        exact ih [] (by simp) w hw
      · rw [if_neg ha] at hw
        rcases List.mem_cons.mp hw with rfl | hw'
        · exact mk_word_good acc hacc (fun h => ha (by simp [h]))
        · exact ih [] (by simp) w hw'
    | false =>
      rw [hc] at hw
      simp only [Bool.false_eq_true, if_false] at hw
      refine ih (acc ++ [c]) ?_ w hw
      intro x hx
      rcases List.mem_append.mp hx with h | h
      · exact hacc x h
      · rw [List.mem_singleton] at h
        subst h
        exact hc

theorem toList_append_str (a b : String) : (a ++ b).toList = a.toList ++ b.toList := by
  simp [String.toList]

theorem pySplit_one_word (w : String) (hne : w ≠ "")
    (hns : ∀ c ∈ w.toList, isPySpace c = false) : pySplit w = [w] := by
  unfold pySplit
  rw [pySplitAux_no_space w.toList [] hns]
  have hlist : w.toList ≠ [] := by
    intro h
    apply hne
    have : String.mk w.toList = String.mk [] := by rw [h]
    simpa using this
  have hdata : w.data ≠ [] := hlist
  simp [hdata]

theorem pySplit_pyJoin_group :
    ∀ group : List String,
      (∀ w ∈ group, w ≠ "" ∧ ∀ c ∈ w.toList, isPySpace c = false) →
      pySplit (pyJoin " " group) = group := by
  intro group
  induction group with
  | nil => intro _; rfl
  | cons w rest ih =>
    intro h
    have hw := h w (by simp)
    cases rest with
    | nil => exact pySplit_one_word w hw.1 hw.2
    | cons v rest' =>
      have hJ : pyJoin " " (w :: v :: rest') = w ++ " " ++ pyJoin " " (v :: rest') := rfl
      have hT : (w ++ " " ++ pyJoin " " (v :: rest')).toList =
          w.toList ++ ' ' :: (pyJoin " " (v :: rest')).toList := by
        rw [toList_append_str, toList_append_str]
        simp
      unfold pySplit
      rw [hJ, hT, pySplitAux_append_sep ' ' (by decide) w.toList _ []]
      rw [pySplitAux_no_space w.toList [] hw.2]
      have hlist : w.toList ≠ [] := by
        intro hcon
        apply hw.1
        have : String.mk w.toList = String.mk [] := by rw [hcon]
        simpa using this
      rw [show pySplitAux (pyJoin " " (v :: rest')).toList [] = pySplit (pyJoin " " (v :: rest')) from rfl,
          ih (fun x hx => h x (by simp [hx]))]
      have hdata : w.data ≠ [] := hlist
      simp [hdata]

theorem pySplit_pyJoin_flatten :
    ∀ xs : List String, pySplit (pyJoin " " xs) = (xs.map pySplit).flatten := by
  intro xs
  induction xs with
  | nil => rfl
  | cons x rest ih =>
    cases rest with
    | nil => simp [pyJoin]
    | cons y rest' =>
      have hJ : pyJoin " " (x :: y :: rest') = x ++ " " ++ pyJoin " " (y :: rest') := rfl
      have hT : (x ++ " " ++ pyJoin " " (y :: rest')).toList =
          x.toList ++ ' ' :: (pyJoin " " (y :: rest')).toList := by
        rw [toList_append_str, toList_append_str]
        simp
      unfold pySplit
      rw [hJ, hT, pySplitAux_append_sep ' ' (by decide) x.toList _ []]
      rw [show pySplitAux (pyJoin " " (y :: rest')).toList [] = pySplit (pyJoin " " (y :: rest')) from rfl, ih]
      simp only [List.map_cons, List.flatten_cons]
      rfl

theorem chunkLoop_tokens (maxSize : Nat) :
    ∀ (ws cur : List String) (len : Nat),
      (∀ w ∈ cur, w ≠ "" ∧ ∀ c ∈ w.toList, isPySpace c = false) →
      (∀ w ∈ ws, w ≠ "" ∧ ∀ c ∈ w.toList, isPySpace c = false) →
      ((chunkLoop maxSize ws cur len).map pySplit).flatten = cur ++ ws := by
  intro ws
  induction ws with
  | nil =>
    intro cur len hcur _
    by_cases he : cur.isEmpty
    · have : cur = [] := by simpa using he
      simp [chunkLoop, he, this]
    · simp [chunkLoop, he, pySplit_pyJoin_group cur hcur]
  | cons w ws ih =>
    intro cur len hcur hws
    simp only [chunkLoop]
    by_cases hover : len + w.length + 1 > maxSize
    · rw [if_pos hover]
      simp only [List.map_cons, List.flatten_cons]
      rw [pySplit_pyJoin_group cur hcur,
          ih [w] w.length
            (by intro x hx; rw [List.mem_singleton] at hx; subst hx; exact hws x (by simp))
            (fun x hx => hws x (by simp [hx]))]
      simp
    · rw [if_neg hover]
      rw [ih (cur ++ [w]) (len + w.length + 1)
            (by
              intro x hx
              rcases List.mem_append.mp hx with h | h
              · exact hcur x h
              · rw [List.mem_singleton] at h
                subst h
                exact hws x (by simp))
            (fun x hx => hws x (by simp [hx]))]
      simp

/-- C5: joining the chunker's chunks in index order with a single-space
separator reconstructs the input's whitespace-token sequence exactly —
token order preserved, no token dropped or duplicated — and the empty
input yields an empty chunk sequence. -/
theorem C5_chunks_reconstruct_tokens (text : String) (maxSize : Nat) :
    pySplit (pyJoin " " (split_chunks text maxSize)) = pySplit text ∧
    split_chunks "" maxSize = [] := by
  constructor
  · rw [pySplit_pyJoin_flatten]
    have hgood : ∀ w ∈ pySplit text, w ≠ "" ∧ ∀ c ∈ w.toList, isPySpace c = false :=
      fun w hw => pySplitAux_words_good text.toList [] (by simp) w hw
    have := chunkLoop_tokens maxSize (pySplit text) [] 0 (by simp) hgood
    simpa [split_chunks] using this
  · rfl

/-! ## Reformatting-loop lemmas (for C2 and C3) -/

theorem formatChunksGo_all_proceed (backend : Nat → LlmCall) :
    ∀ (chunks : List String) (start : Nat),
      (∀ j, j < chunks.length → callProceeds (backend (start + j)) = true) →
      formatChunksGo backend start chunks = .ok (resultParts backend start chunks) := by
  intro chunks
  induction chunks with
  | nil => intro start _; rfl
  | cons c cs ih =>
    intro start h
    have h0 : callProceeds (backend start) = true := by
      have := h 0 (by simp)
      simpa using this
    have hrest : ∀ j, j < cs.length → callProceeds (backend (start + 1 + j)) = true := by
      intro j hj
      have := h (j + 1) (by simpa using Nat.succ_lt_succ hj)
      have harith : start + 1 + j = start + (j + 1) := by omega
      rw [harith]
      exact this
    cases hb : backend start with
    | exn m =>
      rw [hb] at h0
      simp [callProceeds] at h0
    | resp st t body =>
      simp only [formatChunksGo, hb]
      by_cases hst : st = 200
      · cases body with
        | malformed m =>
          rw [hb] at h0
          simp [callProceeds, hst] at h0
        | obj r =>
          rw [if_pos hst, ih (start + 1) hrest]
          simp only [resultParts, chunkCallResult, hb, if_pos hst]
      · rw [if_neg hst, ih (start + 1) hrest]
        simp only [resultParts, chunkCallResult, hb, if_neg hst]

theorem resultParts_length (backend : Nat → LlmCall) :
    ∀ (chunks : List String) (start : Nat),
      (resultParts backend start chunks).length = chunks.length := by
  intro chunks
  induction chunks with
  | nil => intro start; rfl
  | cons c cs ih => intro start; simp [resultParts, ih]

theorem resultParts_getElem? (backend : Nat → LlmCall) :
    ∀ (chunks : List String) (start j : Nat),
      (resultParts backend start chunks)[j]? =
        (chunks[j]?).map (chunkCallResult (backend (start + j))) := by
  intro chunks
  induction chunks with
  | nil => intro start j; simp [resultParts]
  | cons c cs ih =>
    intro start j
    cases j with
    | zero => simp [resultParts]
    | succ j =>
      simp only [resultParts, List.getElem?_cons_succ]
      rw [ih (start + 1) j]
      have harith : start + 1 + j = start + (j + 1) := by omega
      rw [harith]

theorem formatChunksGo_exn (backend : Nat → LlmCall) :
    ∀ (chunks : List String) (start i : Nat) (msg : String),
      i < chunks.length →
      backend (start + i) = .exn msg →
      (∀ j, j < i → callProceeds (backend (start + j)) = true) →
      formatChunksGo backend start chunks = .error msg := by
  intro chunks
  induction chunks with
  | nil =>
    intro start i msg hi
    simp at hi
  | cons c cs ih =>
    intro start i msg hi hexn hbefore
    cases i with
    | zero =>
      rw [Nat.add_zero] at hexn
      simp [formatChunksGo, hexn]
    | succ i =>
      have h0 : callProceeds (backend start) = true := by
        have := hbefore 0 (Nat.succ_pos i)
        simpa using this
      have hexn' : backend (start + 1 + i) = .exn msg := by
        have harith : start + 1 + i = start + (i + 1) := by omega
        rw [harith]
        exact hexn
      have hbefore' : ∀ j, j < i → callProceeds (backend (start + 1 + j)) = true := by
        intro j hj
        have := hbefore (j + 1) (Nat.succ_lt_succ hj)
        have harith : start + 1 + j = start + (j + 1) := by omega
        rw [harith]
        exact this
      have hrec : formatChunksGo backend (start + 1) cs = .error msg :=
        ih (start + 1) i msg (by simpa using Nat.lt_of_succ_lt_succ (Nat.succ_lt_succ hi)) hexn' hbefore'
      cases hb : backend start with
      | exn m =>
        rw [hb] at h0
        simp [callProceeds] at h0
      | resp st t body =>
        simp only [formatChunksGo, hb]
        by_cases hst : st = 200
        · cases body with
          | malformed m =>
            rw [hb] at h0
            simp [callProceeds, hst] at h0
          | obj r =>
            rw [if_pos hst, hrec]
        · rw [if_neg hst, hrec]

/-- C3: if the backend returns a non-success status for chunk `i` while
succeeding (200 with a string `response` field) for every other chunk, the
loop completes with a parts list of the same length whose `i`-th entry is
the original unmodified chunk — so the reassembled paragraph-joined output
contains chunk `i`'s original text in its correct position. -/
theorem C3_nonsuccess_chunk_preserved (chunks : List String) (backend : Nat → LlmCall)
    (i st : Nat) (t : String) (b : LlmBody)
    (hi : i < chunks.length)
    (hbi : backend i = .resp st t b) (hst : st ≠ 200)
    (hothers : ∀ j, j < chunks.length → j ≠ i →
      ∃ tj sj, backend j = .resp 200 tj (.obj (some sj))) :
    ∃ parts, formatChunksGo backend 0 chunks = .ok parts ∧
      parts.length = chunks.length ∧ parts[i]? = chunks[i]? := by
  have hall : ∀ j, j < chunks.length → callProceeds (backend (0 + j)) = true := by
    intro j hj
    rw [Nat.zero_add]
    by_cases hji : j = i
    · subst hji
      rw [hbi]
      simp [callProceeds, hst]
    · obtain ⟨tj, sj, hb⟩ := hothers j hj hji
      rw [hb]
      simp [callProceeds]
  refine ⟨resultParts backend 0 chunks, formatChunksGo_all_proceed backend chunks 0 hall, resultParts_length backend chunks 0, ?_⟩
  rw [resultParts_getElem? backend chunks 0 i, Nat.zero_add]
  cases hci : chunks[i]? with
  | none => rfl
  | some ci =>
    simp [hbi, chunkCallResult, hst]

/-- Witness for C3: three chunks, the middle call returns HTTP 500, the
others succeed with replacement texts; the middle part is the original. -/
theorem C3_witness :
    (1 < (["alpha", "beta", "gamma"] : List String).length ∧
      (fun j => if j = 1 then LlmCall.resp 500 "err" (.obj none)
                else LlmCall.resp 200 "" (.obj (some "X"))) 1 = .resp 500 "err" (.obj none) ∧
      (500 : Nat) ≠ 200) ∧
    ∃ parts,
      formatChunksGo
          (fun j => if j = 1 then LlmCall.resp 500 "err" (.obj none)
                    else LlmCall.resp 200 "" (.obj (some "X"))) 0 ["alpha", "beta", "gamma"] =
        .ok parts ∧
      parts.length = (["alpha", "beta", "gamma"] : List String).length ∧
      parts[1]? = (["alpha", "beta", "gamma"] : List String)[1]? :=
  ⟨⟨by decide, by decide, by decide⟩,
    C3_nonsuccess_chunk_preserved ["alpha", "beta", "gamma"]
      (fun j => if j = 1 then LlmCall.resp 500 "err" (.obj none)
                else LlmCall.resp 200 "" (.obj (some "X")))
      1 500 "err" (.obj none) (by decide) (by decide) (by decide)
      (by
        intro j hj hne
        refine ⟨"", "X", ?_⟩
        simp [hne])⟩

/-- C2 counterexample: the claim says a transport error on a chunk's
backend call is recovered locally and never surfaces as a job error.  In
the code the `client.post` of the reformatting loop (llm_processor.py
line 155) is not wrapped in `try/except`, so a raised transport error
propagates out of `format_transcript_with_sections` and
`process_transcription` moves the job to `Error`. -/
theorem C2_counterexample :
    format_transcript_with_sections "hello world" envFormatTransportError.formatBackend =
        .error "connection refused" ∧
      (traceStatuses envFormatTransportError []).getLast? = some Status.error := by
  constructor
  · rfl
  · rfl

/-- C2 amended: only a non-success HTTP status is recovered by substituting
the original chunk text; a transport error raised by the request itself
propagates (aborting the remaining chunks) and surfaces as a job error.
Formally: if the call for chunk `i` raises and every earlier call
proceeded, `format_transcript_with_sections` raises that error. -/
theorem C2_transport_error_propagates (text : String) (backend : Nat → LlmCall)
    (i : Nat) (msg : String)
    (hi : i < (split_chunks text CHUNK_SIZE).length)
    (hexn : backend i = .exn msg)
    (hbefore : ∀ j, j < i → callProceeds (backend j) = true) :
    format_transcript_with_sections text backend = .error msg := by
  unfold format_transcript_with_sections
  rw [formatChunksGo_exn backend (split_chunks text CHUNK_SIZE) 0 i msg hi
        (by rw [Nat.zero_add]; exact hexn)
        (by intro j hj; rw [Nat.zero_add]; exact hbefore j hj)]

/-- Witness for the amended C2 at a concrete input. -/
theorem C2_witness :
    (0 < (split_chunks "hello world" CHUNK_SIZE).length ∧
      (fun _ : Nat => LlmCall.exn "boom") 0 = .exn "boom") ∧
    format_transcript_with_sections "hello world" (fun _ => .exn "boom") = .error "boom" :=
  ⟨⟨by decide, by decide⟩,
    C2_transport_error_propagates "hello world" (fun _ => .exn "boom") 0 "boom"
      (by decide) (by decide) (by intro j hj; omega)⟩

/-! ## Response-extractor claims -/

/-- C6: for every raw model response, if it contains no brace-delimited
region (no `\x7b`, or the last `\x7d` does not close one after the first
`\x7b`) or the enclosed substring fails to parse as JSON, extraction
returns the fixed fallback record — one chapter `00:00`/`Full Content`,
one takeaway `See transcript for details` — with the raw text attached.
The extraction function is total, so this step never raises. -/
theorem C6_extraction_fallback (s : String)
    (h : strFind s '{' = -1 ∨ ¬ (strFind s '{' < strRfind s '}' + 1) ∨
         jsonLoads (pySlice s (strFind s '{') (strRfind s '}' + 1)) = none) :
    extract_chapters_takeaways s = fallbackRecord s := by
  unfold extract_chapters_takeaways
  by_cases hc : strFind s '{' ≠ -1 ∧ strRfind s '}' + 1 > strFind s '{'
  · rw [if_pos hc]
    rcases h with h | h | h
    · exact absurd h hc.1
    · exact absurd hc.2 h
    · rw [h]
  · rw [if_neg hc]

/-- Witness for C6: a response with no braces falls back. -/
theorem C6_witness :
    strFind "Here are the chapters." '{' = -1 ∧
      extract_chapters_takeaways "Here are the chapters." =
        fallbackRecord "Here are the chapters." :=
  ⟨by decide, C6_extraction_fallback "Here are the chapters." (Or.inl (by decide))⟩

/-- C7: if the slice from the first `\x7b` to the last `\x7d` of the raw
response parses as a JSON object conforming to the chapters/takeaways
schema, extraction returns exactly that record, any missing field
defaulting to the empty sequence, and no `raw_response` key is attached. -/
theorem C7_extraction_success (s : String) (kvs : List (String × Json))
    (hd : strFind s '{' ≠ -1 ∧ strRfind s '}' + 1 > strFind s '{')
    (hp : jsonLoads (pySlice s (strFind s '{') (strRfind s '}' + 1)) = some (.obj kvs))
    (hconf : conformsSchema (.obj kvs) = true) :
    extract_chapters_takeaways s =
      { chapters := pyDictGet (.obj kvs) "chapters" (.arr [])
        takeaways := pyDictGet (.obj kvs) "takeaways" (.arr [])
        raw_response := none } := by
  unfold extract_chapters_takeaways
  rw [if_pos hd, hp]

/-- Witness for C7: a raw response embedding
`\x7b"chapters": [\x7b"timestamp": "00:00", "title": "Intro"\x7d], "takeaways": ["A"]\x7d`
between junk text extracts to exactly that record. -/
theorem C7_witness :
    (strFind "xx\x7b\"chapters\": [\x7b\"timestamp\": \"00:00\", \"title\": \"Intro\"\x7d], \"takeaways\": [\"A\"]\x7dyy" '{' ≠ -1 ∧
        strRfind "xx\x7b\"chapters\": [\x7b\"timestamp\": \"00:00\", \"title\": \"Intro\"\x7d], \"takeaways\": [\"A\"]\x7dyy" '}' + 1 >
          strFind "xx\x7b\"chapters\": [\x7b\"timestamp\": \"00:00\", \"title\": \"Intro\"\x7d], \"takeaways\": [\"A\"]\x7dyy" '{') ∧
    extract_chapters_takeaways
        "xx\x7b\"chapters\": [\x7b\"timestamp\": \"00:00\", \"title\": \"Intro\"\x7d], \"takeaways\": [\"A\"]\x7dyy" =
      { chapters := pyDictGet
          (.obj [("chapters", Json.arr [Json.obj [("timestamp", Json.str "00:00"), ("title", Json.str "Intro")]]),
                 ("takeaways", Json.arr [Json.str "A"])]) "chapters" (.arr [])
        takeaways := pyDictGet
          (.obj [("chapters", Json.arr [Json.obj [("timestamp", Json.str "00:00"), ("title", Json.str "Intro")]]),
                 ("takeaways", Json.arr [Json.str "A"])]) "takeaways" (.arr [])
        raw_response := none } :=
  ⟨⟨by decide, by decide⟩,
    C7_extraction_success
      "xx\x7b\"chapters\": [\x7b\"timestamp\": \"00:00\", \"title\": \"Intro\"\x7d], \"takeaways\": [\"A\"]\x7dyy"
      [("chapters", Json.arr [Json.obj [("timestamp", Json.str "00:00"), ("title", Json.str "Intro")]]),
       ("takeaways", Json.arr [Json.str "A"])]
      ⟨by decide, by decide⟩ (by rfl) (by rfl)⟩

/-- C10: the returned record carries the `raw_response` key exactly when
the fallback path was taken (no usable brace-delimited region, or the
slice fails to parse); on the parse-success path the record is built with
only the `chapters` and `takeaways` keys — encoded here by
`raw_response = none` — so a caller can distinguish a genuine result from
the fallback by the presence of `raw_response`. -/
theorem C10_raw_response_iff_fallback (s : String) :
    ((extract_chapters_takeaways s).raw_response = some s ↔
      ¬ ((strFind s '{' ≠ -1 ∧ strRfind s '}' + 1 > strFind s '{') ∧
        (jsonLoads (pySlice s (strFind s '{') (strRfind s '}' + 1))).isSome = true)) ∧
    ((extract_chapters_takeaways s).raw_response = none ↔
      ((strFind s '{' ≠ -1 ∧ strRfind s '}' + 1 > strFind s '{') ∧
        (jsonLoads (pySlice s (strFind s '{') (strRfind s '}' + 1))).isSome = true)) := by
  unfold extract_chapters_takeaways
  by_cases hc : strFind s '{' ≠ -1 ∧ strRfind s '}' + 1 > strFind s '{'
  · rw [if_pos hc]
    cases hj : jsonLoads (pySlice s (strFind s '{') (strRfind s '}' + 1)) with
    | some v => simp [hj, hc]
    | none => simp [hj, hc, fallbackRecord]
  · rw [if_neg hc]
    simp [fallbackRecord, hc]

/-! ## Pipeline trace lemmas (for C1, C8, C9) -/

/-- Every job trace takes one of five shapes, according to the stage (if
any) at which the pipeline raised. -/
theorem jobTrace_cases (env : Env) (fs0 : List String) :
    (∃ m, jobTrace env fs0 = [startingWrite, downloadingWrite, errorWrite m]) ∨
    (∃ m, jobTrace env fs0 =
      [startingWrite, downloadingWrite, transcribingWrite, errorWrite m]) ∨
    (∃ m, jobTrace env fs0 =
      [startingWrite, downloadingWrite, transcribingWrite, processing70Write, errorWrite m]) ∨
    (∃ m, jobTrace env fs0 =
      [startingWrite, downloadingWrite, transcribingWrite, processing70Write,
       processing85Write, errorWrite m]) ∨
    (∃ r, jobTrace env fs0 =
      [startingWrite, downloadingWrite, transcribingWrite, processing70Write,
       processing85Write, completeWrite r]) := by
  obtain ⟨dl, tr, llm, fb⟩ := env
  unfold jobTrace process_transcription
  cases dl with
  | failure msg leaked => exact Or.inl ⟨msg, rfl⟩
  | success d =>
    cases tr with
    | error msg => exact Or.inr (Or.inl ⟨msg, rfl⟩)
    | ok trInfo =>
      cases hg : generate_chapters_and_takeaways llm with
      | error msg =>
        simp only [hg]
        exact Or.inr (Or.inr (Or.inl ⟨msg, rfl⟩))
      | ok llmRes =>
        simp only [hg]
        cases hf : format_transcript_with_sections trInfo.text fb with
        | error msg =>
          simp only [hf]
          exact Or.inr (Or.inr (Or.inr (Or.inl ⟨msg, rfl⟩)))
        | ok formatted =>
          simp only [hf]
          exact Or.inr (Or.inr (Or.inr (Or.inr ⟨_, rfl⟩)))

theorem traceStatuses_cases (env : Env) (fs0 : List String) :
    traceStatuses env fs0 =
        [Status.starting, .downloading, .error] ∨
    traceStatuses env fs0 =
        [Status.starting, .downloading, .transcribing, .error] ∨
    traceStatuses env fs0 =
        [Status.starting, .downloading, .transcribing, .processing, .error] ∨
    traceStatuses env fs0 =
        [Status.starting, .downloading, .transcribing, .processing, .processing, .error] ∨
    traceStatuses env fs0 =
        [Status.starting, .downloading, .transcribing, .processing, .processing, .complete] := by
  rcases jobTrace_cases env fs0 with ⟨m, h⟩ | ⟨m, h⟩ | ⟨m, h⟩ | ⟨m, h⟩ | ⟨r, h⟩ <;>
    unfold traceStatuses <;> rw [h]
  · exact Or.inl rfl
  · exact Or.inr (Or.inl rfl)
  · exact Or.inr (Or.inr (Or.inl rfl))
  · exact Or.inr (Or.inr (Or.inr (Or.inl rfl)))
  · exact Or.inr (Or.inr (Or.inr (Or.inr rfl)))

/-- Collapsing is monotone under dropping a leading write. -/
theorem collapse_sublist_cons (a : Status) (l : List Status) :
    (collapseStatuses l).Sublist (collapseStatuses (a :: l)) := by
  cases l with
  | nil => simp [collapseStatuses]
  | cons b l' =>
    have h3 : collapseStatuses (a :: b :: l') =
        if a = b then collapseStatuses (b :: l') else a :: collapseStatuses (b :: l') := rfl
    rw [h3]
    by_cases hab : a = b
    · rw [if_pos hab]
    · rw [if_neg hab]
      exact List.sublist_cons_self a _

/-- A collapsed non-empty status list starts with the first status. -/
theorem collapse_cons_head (a : Status) (l : List Status) :
    ∃ t, collapseStatuses (a :: l) = a :: t := by
  induction l generalizing a with
  | nil => exact ⟨[], rfl⟩
  | cons b l' ih =>
    have h3 : collapseStatuses (a :: b :: l') =
        if a = b then collapseStatuses (b :: l') else a :: collapseStatuses (b :: l') := rfl
    by_cases hab : a = b
    · obtain ⟨t, ht⟩ := ih b
      exact ⟨t, by rw [h3, if_pos hab, ht, hab]⟩
    · exact ⟨collapseStatuses (b :: l'), by rw [h3, if_neg hab]⟩

/-- An observation's collapse is a subsequence of the write trace's
collapse. -/
theorem collapse_stutter_sublist (o l : List Status) (h : Stutter o l) :
    (collapseStatuses o).Sublist (collapseStatuses l) := by
  induction h with
  | nil l => exact List.nil_sublist _
  | skip a o l h ih => exact ih.trans (collapse_sublist_cons a l)
  | take a o l h ih =>
    obtain ⟨t, ht⟩ := collapse_cons_head a l
    rw [ht] at ih ⊢
    cases o with
    | nil => exact (List.nil_sublist t).cons₂ a
    | cons c o' =>
      have h3 : collapseStatuses (a :: c :: o') =
          if a = c then collapseStatuses (c :: o') else a :: collapseStatuses (c :: o') := rfl
      by_cases hac : a = c
      · rw [h3, if_pos hac]
        exact ih
      · rw [h3, if_neg hac]
        obtain ⟨t', ht'⟩ := collapse_cons_head c o'
        rw [ht'] at ih ⊢
        have hct : (c :: t').Sublist t := by
          cases ih with
          | cons _ hsub => exact hsub
          | cons₂ => exact absurd rfl hac
        exact hct.cons₂ a

theorem filterMap_getElem_nil_trace (idxs : List Nat) :
    idxs.filterMap (fun k => ([] : List Status)[k]?) = [] := by
  induction idxs with
  | nil => rfl
  | cons k ks ih => simp [List.filterMap_cons, ih]

theorem filterMap_getElem_shift (a : Status) (tr : List Status) :
    ∀ idxs : List Nat, (∀ k ∈ idxs, 1 ≤ k) →
      idxs.filterMap (fun k => (a :: tr)[k]?) =
        (idxs.map (fun k => k - 1)).filterMap (fun k => tr[k]?) := by
  intro idxs
  induction idxs with
  | nil => intro _; rfl
  | cons k ks ih =>
    intro h
    have hk : 1 ≤ k := h k (by simp)
    obtain ⟨j, rfl⟩ : ∃ j, k = j + 1 := ⟨k - 1, by omega⟩
    have hget : (a :: tr)[j + 1]? = tr[j]? := by simp
    have hrest := ih (fun x hx => h x (by simp [hx]))
    simp only [List.filterMap_cons, List.map_cons, hget, hrest]
    rfl

/-- Any non-decreasing sampling of a write trace is a stuttered
observation of it. -/
theorem stutter_of_monotone_sample :
    ∀ (n : Nat) (idxs : List Nat) (tr : List Status),
      idxs.length + tr.length ≤ n →
      List.Pairwise (· ≤ ·) idxs →
      Stutter (idxs.filterMap (fun k => tr[k]?)) tr := by
  intro n
  induction n with
  | zero =>
    intro idxs tr hlen _
    obtain rfl : idxs = [] := by
      cases idxs with
      | nil => rfl
      | cons k ks => simp at hlen
    exact Stutter.nil tr
  | succ n ih =>
    intro idxs tr hlen hmono
    cases idxs with
    | nil => exact Stutter.nil tr
    | cons k ks =>
      cases tr with
      | nil =>
        rw [filterMap_getElem_nil_trace]
        exact Stutter.nil []
      | cons a tr' =>
        cases k with
        | zero =>
          have hs : ((0 : Nat) :: ks).filterMap (fun k => (a :: tr')[k]?) =
              a :: ks.filterMap (fun k => (a :: tr')[k]?) := by
            simp [List.filterMap_cons]
          rw [hs]
          refine Stutter.take a _ _ (ih ks (a :: tr') ?_ hmono.of_cons)
          · simp only [List.length_cons] at hlen ⊢
            omega
        | succ j =>
          have hall : ∀ x ∈ (j + 1) :: ks, 1 ≤ x := by
            intro x hx
            rcases List.mem_cons.mp hx with rfl | hx'
            · omega
            · have := List.rel_of_pairwise_cons hmono hx'
              omega
          rw [filterMap_getElem_shift a tr' ((j + 1) :: ks) hall]
          refine Stutter.skip a _ _ (ih _ tr' ?_ ?_)
          · simp only [List.length_map, List.length_cons] at hlen ⊢
            omega
          · refine List.Pairwise.map _ (fun hab => ?_) hmono
            omega

/-- The collapsed write trace of any run is a canonical subsequence or a
canonical prefix terminated by `Error`. -/
theorem trace_collapse_canonical (env : Env) (fs0 : List String) :
    (collapseStatuses (traceStatuses env fs0)).Sublist canonicalOrder ∨
    ∃ pre, collapseStatuses (traceStatuses env fs0) = pre ++ [Status.error] ∧
      pre.Sublist canonicalOrder := by
  rcases traceStatuses_cases env fs0 with h | h | h | h | h <;> rw [h]
  · exact Or.inr ⟨[.starting, .downloading], by decide, by decide⟩
  · exact Or.inr ⟨[.starting, .downloading, .transcribing], by decide, by decide⟩
  · exact Or.inr ⟨[.starting, .downloading, .transcribing, .processing], by decide, by decide⟩
  · exact Or.inr ⟨[.starting, .downloading, .transcribing, .processing], by decide, by decide⟩
  · exact Or.inl (by decide)

/-- C8: for every job, any status sequence observed by repeated polling
(a non-decreasing sampling of the write trace), read up to stuttering, is
a subsequence of `[Starting, Downloading, Transcribing, Processing,
Complete]` or a canonical-order subsequence terminated by `Error`; the
write trace itself satisfies the same dichotomy; the written status ranks
never decrease (transitions are one-directional, no return to an earlier
state); and from each non-terminal status some run reaches `Error` later
in its trace. -/
theorem C8_state_machine :
    (∀ (env : Env) (fs0 : List String),
        (collapseStatuses (traceStatuses env fs0)).Sublist canonicalOrder ∨
        ∃ pre, collapseStatuses (traceStatuses env fs0) = pre ++ [Status.error] ∧
          pre.Sublist canonicalOrder) ∧
    (∀ (env : Env) (fs0 : List String) (idxs : List Nat),
        List.Pairwise (· ≤ ·) idxs →
        (collapseStatuses (sampledStatuses env fs0 idxs)).Sublist canonicalOrder ∨
        ∃ pre, collapseStatuses (sampledStatuses env fs0 idxs) = pre ++ [Status.error] ∧
          pre.Sublist canonicalOrder) ∧
    (∀ (env : Env) (fs0 : List String),
        List.Pairwise (fun a b => statusRank a ≤ statusRank b) (traceStatuses env fs0)) ∧
    (∀ s : Status, s ∈ [Status.starting, .downloading, .transcribing, .processing] →
        ∃ (env : Env) (fs0 : List String) (i j : Nat), i < j ∧
          (traceStatuses env fs0)[i]? = some s ∧
          (traceStatuses env fs0)[j]? = some .error) := by
  refine ⟨trace_collapse_canonical, ?_, ?_, ?_⟩
  · intro env fs0 idxs hmono
    have hst : Stutter (sampledStatuses env fs0 idxs) (traceStatuses env fs0) :=
      stutter_of_monotone_sample (idxs.length + (traceStatuses env fs0).length) idxs _
        le_rfl hmono
    have hsub := collapse_stutter_sublist _ _ hst
    rcases trace_collapse_canonical env fs0 with h | ⟨pre, hpre, hps⟩
    · exact Or.inl (hsub.trans h)
    · rw [hpre] at hsub
      rcases List.sublist_append_iff.mp hsub with ⟨r1, r2, hr, hr1, hr2⟩
      rcases List.sublist_singleton.mp hr2 with rfl | rfl
      · refine Or.inl ?_
        rw [hr, List.append_nil]
        exact hr1.trans hps
      · exact Or.inr ⟨r1, hr, hr1.trans hps⟩
  · intro env fs0
    rcases traceStatuses_cases env fs0 with h | h | h | h | h <;> rw [h] <;> decide
  · intro s hs
    have hs' : s = .starting ∨ s = .downloading ∨ s = .transcribing ∨ s = .processing := by
      simpa using hs
    rcases hs' with rfl | rfl | rfl | rfl
    · exact ⟨envDownloadFails, [], 0, 2, by decide, by decide, by decide⟩
    · exact ⟨envDownloadFails, [], 1, 2, by decide, by decide, by decide⟩
    · exact ⟨envTranscribeFails, [], 2, 3, by decide, by decide, by decide⟩
    · exact ⟨envLlmFails, [], 3, 4, by decide, by decide, by decide⟩

/-- Witness for C8 at the concrete status `processing`. -/
theorem C8_witness :
    Status.processing ∈ [Status.starting, .downloading, .transcribing, .processing] ∧
    ∃ (env : Env) (fs0 : List String) (i j : Nat), i < j ∧
      (traceStatuses env fs0)[i]? = some Status.processing ∧
      (traceStatuses env fs0)[j]? = some Status.error :=
  ⟨by decide, C8_state_machine.2.2.2 .processing (by decide)⟩

/-- C9: within a job's lifetime the progress values written to the job
record are monotonically non-decreasing until a terminal state is reached
(the terminal `Error` write resets progress to 0, which is outside the
"until terminal" window); on an error-free run the whole write sequence,
terminal `Complete` included, is non-decreasing. -/
theorem C9_progress_monotone (env : Env) (fs0 : List String) :
    List.Pairwise (· ≤ ·)
      (((jobTrace env fs0).takeWhile (fun w => !isTerminal w.status)).map
        (fun w => w.progress)) ∧
    ((∀ w ∈ jobTrace env fs0, w.status ≠ Status.error) →
      List.Pairwise (· ≤ ·) ((jobTrace env fs0).map (fun w => w.progress))) := by
  rcases jobTrace_cases env fs0 with ⟨m, h⟩ | ⟨m, h⟩ | ⟨m, h⟩ | ⟨m, h⟩ | ⟨r, h⟩ <;> rw [h] <;>
    constructor
  · simp [List.takeWhile, startingWrite, downloadingWrite, errorWrite, isTerminal]
  · intro hall
    exact absurd rfl (hall (errorWrite m) (by simp))
  · simp [List.takeWhile, startingWrite, downloadingWrite, transcribingWrite, errorWrite,
      isTerminal]
  · intro hall
    exact absurd rfl (hall (errorWrite m) (by simp))
  · simp [List.takeWhile, startingWrite, downloadingWrite, transcribingWrite,
      processing70Write, errorWrite, isTerminal]
  · intro hall
    exact absurd rfl (hall (errorWrite m) (by simp))
  · simp [List.takeWhile, startingWrite, downloadingWrite, transcribingWrite,
      processing70Write, processing85Write, errorWrite, isTerminal]
  · intro hall
    exact absurd rfl (hall (errorWrite m) (by simp))
  · simp [List.takeWhile, startingWrite, downloadingWrite, transcribingWrite,
      processing70Write, processing85Write, completeWrite, isTerminal]
  · intro _
    simp [startingWrite, downloadingWrite, transcribingWrite,
      processing70Write, processing85Write, completeWrite]

/-- Witness for C9's error-free conjunct at a concrete successful run. -/
theorem C9_witness :
    (∀ w ∈ jobTrace envAllOk [], w.status ≠ Status.error) ∧
    List.Pairwise (· ≤ ·) ((jobTrace envAllOk []).map (fun w => w.progress)) :=
  ⟨by decide, (C9_progress_monotone envAllOk []).2 (by decide)⟩

/-! ## Cleanup claims (C1) -/

/-- After a successful download, every exit path of the pipeline runs the
same `finally` cleanup: `cleanup_audio(audio_path)` with no thumbnail
argument (main.py lines 203–206). -/
theorem finalFs_success (env : Env) (fs0 : List String) (d : DownloadInfo)
    (hd : env.download = .success d) :
    finalFs env fs0 =
      cleanup_audio (some d.audio_path) none
        (fs0 ++ [d.audio_path] ++ d.thumbnail_path.toList) := by
  obtain ⟨dl, tr, llm, fb⟩ := env
  simp only at hd
  subst hd
  unfold finalFs process_transcription
  cases tr with
  | error msg => rfl
  | ok trInfo =>
    cases hg : generate_chapters_and_takeaways llm with
    | error msg => simp only [hg]
    | ok llmRes =>
      simp only [hg]
      cases hf : format_transcript_with_sections trInfo.text fb with
      | error msg => simp only [hf]
      | ok formatted => simp only [hf]

/-- C1 counterexample: in a run whose download succeeds (audio and
thumbnail stored) and whose transcription raises, the job terminates in
`Error` with the audio artifact removed but the thumbnail still in
storage — the orchestrator's `finally` never passes the thumbnail to
`cleanup_audio`, so the claim that both artifacts are removed on every
exit path is false. -/
theorem C1_counterexample :
    (traceStatuses envTranscribeFails []).getLast? = some Status.error ∧
    "downloads/vid.mp3" ∉ finalFs envTranscribeFails [] ∧
    "downloads/vid_thumb.jpg" ∈ finalFs envTranscribeFails [] := by
  refine ⟨rfl, ?_, ?_⟩ <;> decide

/-- C1 amended: on every exit path — `Complete` or `Error`, whatever stage
raised — the downloaded audio artifact is removed from storage by the time
the job reaches its terminal state; the downloaded thumbnail, however, is
never removed by the pipeline's cleanup and remains in storage (it is
referenced by the job result and served by the thumbnail endpoint
afterwards). -/
theorem C1_audio_removed_thumbnail_kept (env : Env) (fs0 : List String) (d : DownloadInfo)
    (hd : env.download = .success d) (hne : d.audio_path ≠ "") :
    d.audio_path ∉ finalFs env fs0 ∧
    (∀ t, d.thumbnail_path = some t → t ≠ d.audio_path → t ∈ finalFs env fs0) := by
  rw [finalFs_success env fs0 d hd]
  have hmem : osPathExists d.audio_path
      (fs0 ++ [d.audio_path] ++ d.thumbnail_path.toList) = true := by
    simp [osPathExists]
  simp only [cleanup_audio, hmem, hne, ne_eq, not_false_eq_true, true_and, if_true]
  constructor
  · simp [removeFile]
  · intro t ht hne2
    simp [removeFile, ht, hne2]

/-- Witness for the amended C1 at a concrete failing-transcription run. -/
theorem C1_witness :
    (envTranscribeFails.download = .success dummyDownload ∧
      dummyDownload.audio_path ≠ "") ∧
    dummyDownload.audio_path ∉ finalFs envTranscribeFails [] ∧
    (∀ t, dummyDownload.thumbnail_path = some t → t ≠ dummyDownload.audio_path →
      t ∈ finalFs envTranscribeFails []) :=
  ⟨⟨rfl, by decide⟩,
    C1_audio_removed_thumbnail_kept envTranscribeFails [] dummyDownload rfl (by decide)⟩

end TldrVideo
